import Mathlib

/-!
Verification development for the orderbook-monitor core: the exchange connector
layer (Binance, FoxBit, MercadoBitcoin) and the aggregation manager.

Shallow embedding conventions:
* price and quantity values carried on the wire as decimal strings are modelled
  by their parsed numeric values in `ℚ` (`parseFloat` results), except where the
  source code itself keys on the raw strings (the FoxBit incremental working
  set, whose `Map` keys and values are strings);
* JavaScript `Map` objects are modelled as insertion-ordered association lists
  (`List (String × α)`), with `mapSet`/`mapDelete`/`mapLookup` mirroring
  `Map.set`/`Map.delete`/`Map.get`;
* timer-based behaviour (debounce, reconnect) is modelled as explicit state
  machines whose transitions mirror the callbacks in the source, with the
  delays/flags the code computes made explicit in the return values.
-/

namespace OrderbookMonitor

/-- Connection status of an exchange connector
(`ConnectionStatus` in src/lib/exchanges/types.ts). -/
inductive ConnectionStatus where
  | disconnected
  | connecting
  | connected
  | reconnecting
  | error
deriving DecidableEq, Repr

/-- One price level (`OrderBookEntry` in types.ts); the optional `total` field
is never set by the connectors and is omitted. -/
structure OrderBookEntry where
  price : ℚ
  quantity : ℚ
deriving DecidableEq, Repr

/-- Normalized order book (`OrderBook` in types.ts). -/
structure OrderBook where
  exchange : String
  symbol : String
  bids : List OrderBookEntry
  asks : List OrderBookEntry
  timestamp : ℤ
  sequenceId : Option ℤ
deriving DecidableEq, Repr

/-- Reconnection configuration (`ConnectorConfig.reconnect` in types.ts).
`backoffMultiplier` is optional in the source (`backoffMultiplier?: number`). -/
structure ReconnectConfig where
  enabled : Bool
  maxAttempts : Nat
  delayMs : ℚ
  backoffMultiplier : Option ℚ
deriving DecidableEq, Repr

/-- Connector configuration (`ConnectorConfig` in types.ts). -/
structure ConnectorConfig where
  symbol : String
  depth : Option Nat
  reconnect : Option ReconnectConfig
deriving DecidableEq, Repr

/-- JavaScript `Map.set` on an insertion-ordered association list: replace the
value at an existing key in place, otherwise append at the end. -/
def mapSet {α : Type} : List (String × α) → String → α → List (String × α)
  | [], p, q => [(p, q)]
  | (k, v) :: rest, p, q =>
      if k = p then (k, q) :: rest else (k, v) :: mapSet rest p q

/-- JavaScript `Map.delete`: remove the entry at the key, if present. -/
def mapDelete {α : Type} (m : List (String × α)) (p : String) :
    List (String × α) :=
  m.filter (fun kv => kv.1 ≠ p)

/-- JavaScript `Map.get`. -/
def mapLookup {α : Type} : List (String × α) → String → Option α
  | [], _ => none
  | (k, v) :: rest, p => if k = p then some v else mapLookup rest p

/-- Number of entries of an association list sitting at a given key. -/
def countKey {α : Type} (m : List (String × α)) (p : String) : Nat :=
  (m.map Prod.fst).count p

/-- FoxBit incremental diff application for one `(price, quantity)` pair on one
side's working map (`FoxbitConnector._processOrderbookData`, foxbit-connector.ts):
quantity `"0"` deletes the price level, any other quantity upserts it. -/
def foxbitApplyDiffEntry (m : List (String × String)) (price quantity : String) :
    List (String × String) :=
  if quantity = "0" then mapDelete m price else mapSet m price quantity

/-- Application of a whole diff message side: the source iterates the message
entries in order with `forEach`. -/
def foxbitApplySide (m : List (String × String))
    (entries : List (String × String)) : List (String × String) :=
  entries.foldl (fun acc e => foxbitApplyDiffEntry acc e.1 e.2) m

/-- Function `trimOrderBook` from types.ts: `slice(0, maxDepth)` on both sides. -/
def trimOrderBook (orderBook : OrderBook) (maxDepth : Nat) : OrderBook :=
  { orderBook with
    bids := orderBook.bids.take maxDepth
    asks := orderBook.asks.take maxDepth }

/-- The connectors guard trimming with `if (this._config.depth)`, which under
JavaScript truthiness skips the trim when `depth` is `undefined` or `0`. -/
def applyDepthLimit (cfg : ConnectorConfig) (orderBook : OrderBook) : OrderBook :=
  match cfg.depth with
  | some d => if d ≠ 0 then trimOrderBook orderBook d else orderBook
  | none => orderBook

/-- Binance depth-stream message (`BinanceDepthUpdate` in binance-connector.ts),
with the `[priceStr, qtyStr]` pairs of `b`/`a` modelled by their parsed values. -/
structure BinanceDepthUpdate where
  e : String
  E : ℤ
  s : String
  U : ℤ
  u : ℤ
  b : List (ℚ × ℚ)
  a : List (ℚ × ℚ)
deriving DecidableEq, Repr

/-- Method `BinanceConnector._handleMessage`, happy path: off-type messages
(`data.e !== "depthUpdate"`) are dropped; otherwise the message's bid/ask
arrays are republished directly (no sorting), trimmed per `applyDepthLimit`.
`now` stands for `Date.now()`. -/
def binanceProcessMessage (cfg : ConnectorConfig) (now : ℤ)
    (data : BinanceDepthUpdate) : Option OrderBook :=
  if data.e ≠ "depthUpdate" then none
  else
    let orderBook : OrderBook :=
      { exchange := "binance"
        symbol := cfg.symbol
        bids := data.b.map (fun pq => OrderBookEntry.mk pq.1 pq.2)
        asks := data.a.map (fun pq => OrderBookEntry.mk pq.1 pq.2)
        timestamp := now
        sequenceId := some data.u }
    some (applyDepthLimit cfg orderBook)

/-- FoxBit orderbook payload (`FoxbitOrderbookData`), price/quantity pairs
modelled by their parsed values. -/
structure FoxbitOrderbookData where
  sequence_id : Option ℤ
  first_sequence_id : Option ℤ
  last_sequence_id : Option ℤ
  ts : Option ℤ
  asks : List (ℚ × ℚ)
  bids : List (ℚ × ℚ)
deriving DecidableEq, Repr

/-- JavaScript `x || dflt` on an optional number: `undefined` and `0` fall
through to the default. -/
def jsOrIntDefault : Option ℤ → ℤ → ℤ
  | some t, dflt => if t ≠ 0 then t else dflt
  | none, dflt => dflt

/-- JavaScript `x || y` on two optional numbers. -/
def jsOrOptInt : Option ℤ → Option ℤ → Option ℤ
  | some t, y => if t ≠ 0 then some t else y
  | none, y => y

/-- Method `FoxbitConnector._processOrderbookData` in the pass-through variant of the
connector (src/unnamed/part_004): the message's bid/ask arrays are republished
directly as the new book (no working set, no sorting), trimmed per
`applyDepthLimit`; `timestamp := data.ts || Date.now()`,
`sequenceId := data.last_sequence_id || data.sequence_id`. -/
def foxbitPassthroughProcess (cfg : ConnectorConfig) (now : ℤ)
    (data : FoxbitOrderbookData) : OrderBook :=
  let orderBook : OrderBook :=
    { exchange := "foxbit"
      symbol := cfg.symbol
      bids := data.bids.map (fun pq => OrderBookEntry.mk pq.1 pq.2)
      asks := data.asks.map (fun pq => OrderBookEntry.mk pq.1 pq.2)
      timestamp := jsOrIntDefault data.ts now
      sequenceId := jsOrOptInt data.last_sequence_id data.sequence_id }
  applyDepthLimit cfg orderBook

/-- Concrete connector config for exercising the snapshot invariant. -/
def cfgC2 : ConnectorConfig :=
  { symbol := "BTC/USDT", depth := some 20, reconnect := none }

/-- A well-typed Binance depth message whose bid prices arrive in ascending
order (1 then 2). -/
def msgC2 : BinanceDepthUpdate :=
  { e := "depthUpdate", E := 0, s := "BTCUSDT", U := 1, u := 2
    b := [(1, 1), (2, 1)], a := [] }

/-- The snapshot the Binance connector produces from `msgC2`. -/
def obC2 : OrderBook :=
  { exchange := "binance", symbol := "BTC/USDT"
    bids := [OrderBookEntry.mk 1 1, OrderBookEntry.mk 2 1], asks := []
    timestamp := 0, sequenceId := some 2 }

/-- Config with depth 2 for the amended-claim witness. -/
def cfgC2W : ConnectorConfig :=
  { symbol := "BTC/USDT", depth := some 2, reconnect := none }

/-- A Binance depth message whose sides arrive already sorted. -/
def msgC2W : BinanceDepthUpdate :=
  { e := "depthUpdate", E := 0, s := "BTCUSDT", U := 1, u := 2
    b := [(3, 1), (2, 1), (1, 1)], a := [(4, 1), (5, 1), (6, 1)] }

/-- A FoxBit payload whose sides arrive already sorted. -/
def fdataC2W : FoxbitOrderbookData :=
  { sequence_id := some 7, first_sequence_id := none, last_sequence_id := some 9
    ts := some 5, asks := [(10, 1), (11, 1), (12, 1)], bids := [(9, 1), (8, 1), (7, 1)] }

/-- MercadoBitcoin orderbook payload (`MBOrderbookMessage.data`): price/volume
pairs arrive already numeric, the timestamp in nanoseconds. -/
structure MBOrderbookData where
  timestamp : ℤ
  asks : List (ℚ × ℚ)
  bids : List (ℚ × ℚ)
deriving DecidableEq, Repr

/-- MercadoBitcoin orderbook message, dispatched by `_handleMessage` when
`type = "orderbook"` and `data` is present. -/
structure MBOrderbookMessage where
  id : String
  ts : ℤ
  data : MBOrderbookData
deriving DecidableEq, Repr

/-- Method `MercadoBitcoinConnector._processOrderbookData`: each message is a
complete snapshot whose arrays are republished directly (no sorting); the
nanosecond timestamp is floored to milliseconds, the message `ts` becomes the
sequence id, and the book is trimmed per `applyDepthLimit`. -/
def mbProcessOrderbookData (cfg : ConnectorConfig)
    (message : MBOrderbookMessage) : OrderBook :=
  let orderBook : OrderBook :=
    { exchange := "mercadobitcoin", symbol := cfg.symbol
      bids := message.data.bids.map (fun pv => OrderBookEntry.mk pv.1 pv.2)
      asks := message.data.asks.map (fun pv => OrderBookEntry.mk pv.1 pv.2)
      timestamp := Int.fdiv message.data.timestamp 1000000
      sequenceId := some message.ts }
  applyDepthLimit cfg orderBook

/-- Method `FoxbitConnector._buildAndEmitOrderBook` of the live map-based
connector (foxbit-connector.ts): extract the working maps' entries, sort the
bid array descending and the ask array ascending by parsed price (`Array.sort`
with a numeric comparator on the price strings), parse to entries, and trim
per `applyDepthLimit`. `parse` stands for `parseFloat`. -/
def foxbitBuildOrderBook (parse : String → ℚ) (cfg : ConnectorConfig)
    (timestamp : ℤ) (sequenceId : Option ℤ)
    (bidsMap asksMap : List (String × String)) : OrderBook :=
  let bidsArray := bidsMap.insertionSort (fun a b => parse b.1 ≤ parse a.1)
  let asksArray := asksMap.insertionSort (fun a b => parse a.1 ≤ parse b.1)
  let orderBook : OrderBook :=
    { exchange := "foxbit", symbol := cfg.symbol
      bids := bidsArray.map (fun kv => OrderBookEntry.mk (parse kv.1) (parse kv.2))
      asks := asksArray.map (fun kv => OrderBookEntry.mk (parse kv.1) (parse kv.2))
      timestamp := timestamp, sequenceId := sequenceId }
  applyDepthLimit cfg orderBook

/-- A MercadoBitcoin message whose sides arrive already sorted. -/
def mbMsgC2W : MBOrderbookMessage :=
  { id := "BRLBTC", ts := 11
    data := { timestamp := 5000000
              asks := [(10, 1), (11, 1), (12, 1)], bids := [(9, 1), (8, 1)] } }

/-- A concrete stand-in for `parseFloat` on the price strings of the C2
witness. -/
def parseC2W : String → ℚ
  | "7" => 7
  | "8" => 8
  | "9" => 9
  | "10" => 10
  | "11" => 11
  | _ => 0

/-- Working bid map for the C2 witness (unsorted entry order). -/
def bidsMapC2W : List (String × String) := [("8", "1"), ("9", "2")]

/-- Working ask map for the C2 witness (unsorted entry order). -/
def asksMapC2W : List (String × String) := [("11", "1"), ("10", "2")]

/-- Manager debounce state (`OrderBookManager`): whether `_debounceTimeout` is
armed, the `_pendingUpdate` flag, and the number of consolidated publishes so
far (each publish is one pass over `_orderBookCallbacks`). -/
structure DebounceState where
  timerActive : Bool
  pending : Bool
  publishCount : Nat
deriving DecidableEq, Repr

/-- Method `OrderBookManager._emitOrderBookUpdate`: while the debounce timer is armed,
just mark a pending update and return; otherwise publish the consolidated book
to all callbacks and, when `debounceMs > 0`, arm the debounce timer. -/
def emitOrderBookUpdate (debounceMs : Nat) (s : DebounceState) : DebounceState :=
  if s.timerActive then { s with pending := true }
  else
    let s2 : DebounceState := { s with publishCount := s.publishCount + 1 }
    if 0 < debounceMs then { s2 with timerActive := true } else s2

/-- The debounce timer callback: clear the timer handle, then, if an update is
pending, clear the flag and re-enter `_emitOrderBookUpdate`. -/
def debounceTimerFire (debounceMs : Nat) (s : DebounceState) : DebounceState :=
  let s2 : DebounceState := { s with timerActive := false }
  if s2.pending then emitOrderBookUpdate debounceMs { s2 with pending := false }
  else s2

/-- Per-connector reconnect machine state: current status and
`_reconnectAttempts`. -/
structure ConnectorMachineState where
  status : ConnectionStatus
  reconnectAttempts : Nat
deriving DecidableEq, Repr

/-- Expression `reconnectConfig.backoffMultiplier || 1`: an absent — or, by JavaScript
falsiness, a zero — multiplier collapses to 1. -/
def effectiveMultiplier (rc : ReconnectConfig) : ℚ :=
  match rc.backoffMultiplier with
  | some b => if b ≠ 0 then b else 1
  | none => 1

/-- Method `_scheduleReconnect` (textually identical in the Binance, FoxBit and
MercadoBitcoin connectors): no-op when reconnect is absent or disabled; when
`maxAttempts > 0` and the attempt counter has reached it, set status ERROR and
schedule nothing; otherwise increment the attempt counter, set status
RECONNECTING and schedule a reconnect timer with delay
`delayMs * (backoffMultiplier || 1) ^ (attempts - 1)`. The second component is
the delay of the timer this call scheduled, if any. -/
def scheduleReconnect (rc : Option ReconnectConfig)
    (s : ConnectorMachineState) : ConnectorMachineState × Option ℚ :=
  match rc with
  | none => (s, none)
  | some rc =>
      if rc.enabled = false then (s, none)
      else if 0 < rc.maxAttempts ∧ rc.maxAttempts ≤ s.reconnectAttempts then
        ({ s with status := ConnectionStatus.error }, none)
      else
        let attempts := s.reconnectAttempts + 1
        ({ status := ConnectionStatus.reconnecting, reconnectAttempts := attempts },
          some (rc.delayMs * effectiveMultiplier rc ^ (attempts - 1)))

/-- Method `_handleOpen`: on WebSocket open the status becomes CONNECTED and the
attempt counter resets to 0. -/
def handleOpen (_s : ConnectorMachineState) : ConnectorMachineState :=
  { status := ConnectionStatus.connected, reconnectAttempts := 0 }

/-- Failure path of `connect()`: the catch block sets status ERROR and calls
`_scheduleReconnect`. -/
def connectFailedStep (rc : Option ReconnectConfig)
    (s : ConnectorMachineState) : ConnectorMachineState × Option ℚ :=
  scheduleReconnect rc { s with status := ConnectionStatus.error }

/-- Run of `n` consecutive failed connect attempts, collecting the reconnect
delay scheduled (or not) after each failure. -/
def runFailures (rc : Option ReconnectConfig) :
    Nat → ConnectorMachineState → ConnectorMachineState × List (Option ℚ)
  | 0, s => (s, [])
  | n + 1, s =>
      let step := connectFailedStep rc s
      let rest := runFailures rc n step.1
      (rest.1, step.2 :: rest.2)

/-- Reconnect policy with an explicitly configured `backoffMultiplier` of 0. -/
def rcZeroMult : ReconnectConfig :=
  { enabled := true, maxAttempts := 5, delayMs := 1000
    backoffMultiplier := some 0 }

/-- The connectors' default reconnect policy: 5 attempts, 1000 ms initial
delay, multiplier 1.5. -/
def rcDefault : ReconnectConfig :=
  { enabled := true, maxAttempts := 5, delayMs := 1000
    backoffMultiplier := some (3 / 2) }

/-- Automatic events that can reach a connector without an explicit `connect()`
call: a socket close (`_handleClose`) and a failed connect attempt (the catch
in `connect()`, e.g. when a reconnect timer's attempt fails). -/
inductive AutoEvent where
  | socketClosed
  | connectFailed
deriving DecidableEq, Repr

/-- One automatic event: `_handleClose` ignores closes while DISCONNECTED,
otherwise records DISCONNECTED and calls `_scheduleReconnect`; a failed connect
runs the `connect()` catch block. -/
def autoStep (rc : Option ReconnectConfig) (s : ConnectorMachineState) :
    AutoEvent → ConnectorMachineState × Option ℚ
  | AutoEvent.connectFailed => connectFailedStep rc s
  | AutoEvent.socketClosed =>
      if s.status ≠ ConnectionStatus.disconnected then
        scheduleReconnect rc { s with status := ConnectionStatus.disconnected }
      else (s, none)

/-- Processing a sequence of automatic events, collecting every reconnect-timer
delay scheduled along the way. -/
def runAuto (rc : Option ReconnectConfig) :
    ConnectorMachineState → List AutoEvent → ConnectorMachineState × List ℚ
  | s, [] => (s, [])
  | s, e :: es =>
      let step := autoStep rc s e
      let rest := runAuto rc step.1 es
      (rest.1, step.2.toList ++ rest.2)

/-- Aggregation-manager state relevant to unregistration: the registered
connectors (`_connectors`, keyed by exchange, each with its current status),
the per-exchange snapshot cache (`_orderBooks`), and the exchanges the manager
still holds an unsubscriber for (`_unsubscribers` — equivalently, whose
listener set still contains the manager's bound handler). -/
structure ManagerState where
  connectors : List (String × ConnectionStatus)
  orderBooks : List (String × OrderBook)
  unsubscribers : List String
deriving Repr

/-- Method `OrderBookManager.unregisterConnector`: no-op for an unknown exchange;
otherwise calls `connector.disconnect()` only when the status is exactly
CONNECTED, runs and removes the stored unsubscriber, and deletes the connector
and its cached snapshot. The second component records whether `disconnect()`
was invoked. -/
def unregisterConnector (m : ManagerState) (exchange : String) :
    ManagerState × Bool :=
  match mapLookup m.connectors exchange with
  | none => (m, false)
  | some st =>
      ({ connectors := mapDelete m.connectors exchange
         orderBooks := mapDelete m.orderBooks exchange
         unsubscribers := m.unsubscribers.filter (fun e2 => e2 ≠ exchange) },
        decide (st = ConnectionStatus.connected))

/-- A connector `ORDER_BOOK_UPDATE` event reaching the manager: the manager's
bound `_handleConnectorEvent` is in the connector's listener set only while
the manager still holds the unsubscriber, so a stale event emitted after
unregistration mutates nothing. While subscribed, the handler caches the
snapshot under the event's exchange id. -/
def deliverOrderBookEvent (m : ManagerState) (exchange : String)
    (ob : OrderBook) : ManagerState :=
  if exchange ∈ m.unsubscribers then
    { m with orderBooks := mapSet m.orderBooks exchange ob }
  else m

/-- View `getConsolidatedOrderBook().byExchange`: a copy of the `_orderBooks` cache
(`lastUpdate := Date.now()` and the display `symbol` are stamped on at call
time and carry no per-exchange book data). -/
def consolidatedByExchange (m : ManagerState) : List (String × OrderBook) :=
  m.orderBooks

/-- Manager holding one connector currently in RECONNECTING state. -/
def mC6 : ManagerState :=
  { connectors := [("foxbit", ConnectionStatus.reconnecting)]
    orderBooks := [], unsubscribers := ["foxbit"] }

/-- A cached snapshot for the C6 witness. -/
def obC6W : OrderBook :=
  { exchange := "binance", symbol := "BTC/USDT", bids := [], asks := []
    timestamp := 1, sequenceId := none }

/-- Manager holding one connected connector with a cached snapshot. -/
def mC6W : ManagerState :=
  { connectors := [("binance", ConnectionStatus.connected)]
    orderBooks := [("binance", obC6W)], unsubscribers := ["binance"] }

/-- A registered connector as `connectAll` sees it: exchange id, current
status, and whether its `connect()` attempt would succeed. -/
structure RegisteredConnector where
  exchange : String
  status : ConnectionStatus
  connectSucceeds : Bool
deriving DecidableEq, Repr

/-- The outcome of one `connector.connect()` call. -/
def connectOutcome (c : RegisteredConnector) : Except String Unit :=
  if c.connectSucceeds then Except.ok () else Except.error c.exchange

/-- Call `connector.connect().catch(...)` with an error logger: a rejected
connect is caught and logged, never rethrown. -/
def guardedConnect (c : RegisteredConnector) : Except String Unit :=
  match connectOutcome c with
  | Except.ok _ => Except.ok ()
  | Except.error _ => Except.ok ()

/-- Method `OrderBookManager.connectAll`: iterate the registered connectors, pushing a
guarded connect for each one whose status is DISCONNECTED, then
`await Promise.allSettled(promises)`. Returns the exchanges a connect was
attempted for and the overall outcome (an error only if a pushed promise
rejects). -/
def connectAll (cs : List RegisteredConnector) :
    List String × Except String Unit :=
  let attempted :=
    cs.filter (fun c => decide (c.status = ConnectionStatus.disconnected))
  (attempted.map RegisteredConnector.exchange,
    if (attempted.map guardedConnect).all
        (fun r => match r with
          | Except.ok _ => true
          | Except.error _ => false)
      then Except.ok () else Except.error "connect rejected")

/-- One registered connector sitting in ERROR state whose connect would
succeed. -/
def csC7 : List RegisteredConnector :=
  [{ exchange := "binance", status := ConnectionStatus.error
     connectSucceeds := true }]

/-- Registered connectors for the C7 witness: one disconnected whose connect
fails, one already connected. -/
def csC7W : List RegisteredConnector :=
  [{ exchange := "binance", status := ConnectionStatus.disconnected
     connectSucceeds := false },
   { exchange := "foxbit", status := ConnectionStatus.connected
     connectSucceeds := true }]

/-- One registered event observer: an identifier and whether its callback
throws on this event. -/
structure ListenerSpec where
  id : Nat
  throws : Bool
deriving DecidableEq, Repr

/-- Invoking one listener: its id is appended to the delivery log, then its
callback either returns or throws. -/
def invokeListener (log : List Nat) (l : ListenerSpec) :
    List Nat × Except String Unit :=
  (log ++ [l.id],
    if l.throws then Except.error "listener threw" else Except.ok ())

/-- Method `_emit` (textually identical in all three connectors): `forEach` over the
listener set with a per-listener try/catch that logs the error and continues,
so a throwing listener does not abort the iteration. Returns the delivery
log. -/
def emitEvent (ls : List ListenerSpec) : List Nat :=
  ls.foldl (fun log l => (invokeListener log l).1) []

/-- Structure `ManagerStatus` (orderbook-manager.ts). -/
structure ManagerStatus where
  connectedCount : Nat
  connectingCount : Nat
  disconnectedCount : Nat
  errorCount : Nat
  byExchange : List (String × ConnectionStatus)
deriving DecidableEq, Repr

/-- The switch in `OrderBookManager.getStatus`: CONNECTED, DISCONNECTED and
ERROR bump their own counters; CONNECTING and RECONNECTING both bump
`connectingCount`. -/
def statusTally (st : ConnectionStatus) (acc : ManagerStatus) : ManagerStatus :=
  match st with
  | ConnectionStatus.connected =>
      { acc with connectedCount := acc.connectedCount + 1 }
  | ConnectionStatus.connecting =>
      { acc with connectingCount := acc.connectingCount + 1 }
  | ConnectionStatus.reconnecting =>
      { acc with connectingCount := acc.connectingCount + 1 }
  | ConnectionStatus.disconnected =>
      { acc with disconnectedCount := acc.disconnectedCount + 1 }
  | ConnectionStatus.error =>
      { acc with errorCount := acc.errorCount + 1 }

/-- One iteration of the `getStatus` loop: set `byExchange` for the connector
and run the counting switch on its status. -/
def statusStep (acc : ManagerStatus) (c : String × ConnectionStatus) :
    ManagerStatus :=
  statusTally c.2 { acc with byExchange := mapSet acc.byExchange c.1 c.2 }

/-- Method `OrderBookManager.getStatus`: one pass over the registered connectors,
setting `byExchange` for each and bumping exactly one counter per connector,
starting from all-zero counts and an empty map. -/
def getStatus (connectors : List (String × ConnectionStatus)) : ManagerStatus :=
  connectors.foldl statusStep
    { connectedCount := 0, connectingCount := 0, disconnectedCount := 0
      errorCount := 0, byExchange := [] }

/-- Method `_setStatus` (textually identical in all three connectors): when the new
status equals the current one, return without emitting; otherwise store it and
emit a STATUS_CHANGE event carrying the new status. The second component is
the status carried by the emitted event, if any. -/
def setStatus (current target : ConnectionStatus) :
    ConnectionStatus × Option ConnectionStatus :=
  if current = target then (current, none) else (target, some target)

/-- The stream of STATUS_CHANGE payloads observers receive across a sequence
of `_setStatus` calls. -/
def statusTrace : ConnectionStatus → List ConnectionStatus →
    List ConnectionStatus
  | _, [] => []
  | current, t :: rest =>
      let step := setStatus current t
      step.2.toList ++ statusTrace step.1 rest

end OrderbookMonitor

namespace OrderbookMonitor

theorem mapLookup_mapSet {α : Type} (m : List (String × α)) (p : String) (q : α) :
    mapLookup (mapSet m p q) p = some q := by
  induction m with
  | nil => simp [mapSet, mapLookup]
  | cons kv rest ih =>
      obtain ⟨k, v⟩ := kv
      by_cases hk : k = p
      · simp [mapSet, mapLookup, hk]
      · simp [mapSet, mapLookup, hk, ih]

theorem countKey_mapDelete {α : Type} (m : List (String × α)) (p : String) :
    countKey (mapDelete m p) p = 0 := by
  rw [countKey, List.count_eq_zero]
  intro hmem
  rw [List.mem_map] at hmem
  obtain ⟨kv, hkv, hfst⟩ := hmem
  rw [mapDelete, List.mem_filter] at hkv
  exact absurd hfst (by simpa using hkv.2)

theorem keys_mapSet {α : Type} (m : List (String × α)) (p : String) (q : α) :
    (mapSet m p q).map Prod.fst =
      if p ∈ m.map Prod.fst then m.map Prod.fst
      else m.map Prod.fst ++ [p] := by
  induction m with
  | nil => simp [mapSet]
  | cons kv rest ih =>
      obtain ⟨k, v⟩ := kv
      by_cases hk : k = p
      · subst hk
        simp [mapSet]
      · have hm : mapSet ((k, v) :: rest) p q = (k, v) :: mapSet rest p q := by
          simp only [mapSet, if_neg hk]
        have hpk : ¬ p = k := fun h2 => hk h2.symm
        rw [hm]
        simp only [List.map_cons, ih, List.mem_cons]
        by_cases hp : p ∈ rest.map Prod.fst
        · rw [if_pos hp, if_pos (Or.inr hp)]
        · rw [if_neg hp, if_neg ?_]
          · rfl
          · rintro (h2 | h2)
            · exact hpk h2
            · exact hp h2

theorem countKey_mapSet {α : Type} (m : List (String × α)) (p : String) (q : α)
    (h : (m.map Prod.fst).Nodup) : countKey (mapSet m p q) p = 1 := by
  rw [countKey, keys_mapSet]
  by_cases hp : p ∈ m.map Prod.fst
  · rw [if_pos hp]
    exact List.count_eq_one_of_mem h hp
  · rw [if_neg hp, List.count_append]
    have h0 : List.count p (m.map Prod.fst) = 0 := List.count_eq_zero.mpr hp
    simp [h0]

theorem nodup_keys_mapSet {α : Type} (m : List (String × α)) (p : String) (q : α)
    (h : (m.map Prod.fst).Nodup) :
    ((mapSet m p q).map Prod.fst).Nodup := by
  rw [keys_mapSet]
  by_cases hp : p ∈ m.map Prod.fst
  · rw [if_pos hp]
    exact h
  · rw [if_neg hp]
    simp [List.nodup_append, h, hp]

/-- C1: For the incremental-diff (FoxBit) connector, diff application is a
per-price upsert/delete over the private price-to-quantity working map: for
every working-map state with unique keys and every price `p`, applying the diff
entry `(p, "0")` after an upsert of `(p, "5")` leaves no level at price `p`,
and applying `(p, "3")` twice in a row leaves exactly one level at price `p`
with quantity `"3"` (last write wins, never additive). -/
theorem foxbit_diff_upsert_delete (m : List (String × String)) (p : String)
    (h : (m.map Prod.fst).Nodup) :
    countKey (foxbitApplyDiffEntry (foxbitApplyDiffEntry m p "5") p "0") p = 0 ∧
    countKey (foxbitApplyDiffEntry (foxbitApplyDiffEntry m p "3") p "3") p = 1 ∧
    mapLookup (foxbitApplyDiffEntry (foxbitApplyDiffEntry m p "3") p "3") p =
      some "3" := by
  have h5 : ("5" : String) ≠ "0" := by decide
  have h3 : ("3" : String) ≠ "0" := by decide
  have e5 : foxbitApplyDiffEntry m p "5" = mapSet m p "5" := by
    rw [foxbitApplyDiffEntry, if_neg h5]
  have e0 : ∀ m2 : List (String × String),
      foxbitApplyDiffEntry m2 p "0" = mapDelete m2 p := fun m2 => by
    rw [foxbitApplyDiffEntry, if_pos rfl]
  have e3 : ∀ m2 : List (String × String),
      foxbitApplyDiffEntry m2 p "3" = mapSet m2 p "3" := fun m2 => by
    rw [foxbitApplyDiffEntry, if_neg h3]
  refine ⟨?_, ?_, ?_⟩
  · rw [e5, e0]
    exact countKey_mapDelete _ p
  · rw [e3, e3]
    exact countKey_mapSet _ p "3" (nodup_keys_mapSet m p "3" h)
  · rw [e3, e3]
    exact mapLookup_mapSet _ p "3"

/-- Witness for C1 at a concrete working map holding levels at prices
`"100"` and `"101"`. -/
theorem foxbit_diff_upsert_delete_witness :
    (([("100", "1"), ("101", "2")].map Prod.fst).Nodup ∧
      countKey (foxbitApplyDiffEntry
        (foxbitApplyDiffEntry [("100", "1"), ("101", "2")] "100" "5")
        "100" "0") "100" = 0 ∧
      countKey (foxbitApplyDiffEntry
        (foxbitApplyDiffEntry [("100", "1"), ("101", "2")] "100" "3")
        "100" "3") "100" = 1 ∧
      mapLookup (foxbitApplyDiffEntry
        (foxbitApplyDiffEntry [("100", "1"), ("101", "2")] "100" "3")
        "100" "3") "100" = some "3") := by
  have hnd : (([("100", "1"), ("101", "2")] :
      List (String × String)).map Prod.fst).Nodup := by decide
  exact ⟨hnd, foxbit_diff_upsert_delete [("100", "1"), ("101", "2")] "100" hnd⟩

theorem chain_price_take (l : List (ℚ × ℚ)) (d : Nat) (R : ℚ → ℚ → Prop)
    (h : (l.map Prod.fst).Chain' R) :
    (((l.map (fun pq => OrderBookEntry.mk pq.1 pq.2)).take d).map
      OrderBookEntry.price).Chain' R := by
  rw [List.map_take, List.map_map]
  exact h.take d

/-- C2 counterexample: the Binance connector does not sort; processing a
well-typed Binance depth message whose bid prices arrive ascending (1 then 2)
produces a snapshot whose bids are not strictly descending by price, refuting
the claim that every produced snapshot is sorted. -/
theorem snapshot_sorted_counterexample :
    binanceProcessMessage cfgC2 0 msgC2 = some obC2 ∧
    ¬ (obC2.bids.map OrderBookEntry.price).Chain' (· > ·) := by
  constructor
  · rfl
  · simp [obC2, List.chain'_cons]

theorem chain_take_of_pairwise {α : Type} {R : α → α → Prop} {l : List α}
    (h : List.Pairwise R l) (d : Nat) : (l.take d).Chain' R :=
  (h.sublist (List.take_sublist d l)).chain'

theorem chain_price_take_parse (parse : String → ℚ)
    (l : List (String × String)) (d : Nat) (R : ℚ → ℚ → Prop)
    (h : List.Pairwise R (l.map (fun kv => parse kv.1))) :
    (((l.map (fun kv => OrderBookEntry.mk (parse kv.1) (parse kv.2))).take
      d).map OrderBookEntry.price).Chain' R := by
  rw [List.map_take, List.map_map]
  exact chain_take_of_pairwise h d

theorem sortMap_prices_desc (parse : String → ℚ)
    (l : List (String × String)) :
    List.Pairwise (· ≥ ·)
      ((l.insertionSort (fun a b => parse b.1 ≤ parse a.1)).map
        (fun kv => parse kv.1)) := by
  haveI : IsTotal (String × String) (fun a b => parse b.1 ≤ parse a.1) :=
    ⟨fun a b => le_total _ _⟩
  haveI : IsTrans (String × String) (fun a b => parse b.1 ≤ parse a.1) :=
    ⟨fun _ _ _ hab hbc => le_trans hbc hab⟩
  exact List.pairwise_map.mpr
    (List.sorted_insertionSort
      (fun a b : String × String => parse b.1 ≤ parse a.1) l)

theorem sortMap_prices_asc (parse : String → ℚ)
    (l : List (String × String)) :
    List.Pairwise (· ≤ ·)
      ((l.insertionSort (fun a b => parse a.1 ≤ parse b.1)).map
        (fun kv => parse kv.1)) := by
  haveI : IsTotal (String × String) (fun a b => parse a.1 ≤ parse b.1) :=
    ⟨fun a b => le_total _ _⟩
  haveI : IsTrans (String × String) (fun a b => parse a.1 ≤ parse b.1) :=
    ⟨fun _ _ _ hab hbc => le_trans hab hbc⟩
  exact List.pairwise_map.mpr
    (List.sorted_insertionSort
      (fun a b : String × String => parse a.1 ≤ parse b.1) l)

theorem sortMap_prices_nodup (parse : String → ℚ)
    (l : List (String × String))
    (r : (String × String) → (String × String) → Prop) [DecidableRel r]
    (h : (l.map (fun kv => parse kv.1)).Nodup) :
    ((l.insertionSort r).map (fun kv => parse kv.1)).Nodup :=
  (((List.perm_insertionSort r l).map
    (fun kv => parse kv.1)).nodup_iff).mpr h

theorem pairwise_gt_of_ge_nodup {l : List ℚ}
    (hge : List.Pairwise (· ≥ ·) l) (hnd : l.Nodup) :
    List.Pairwise (· > ·) l :=
  (hge.and hnd).imp (fun hab => lt_of_le_of_ne hab.1 (Ne.symm hab.2))

theorem pairwise_lt_of_le_nodup {l : List ℚ}
    (hle : List.Pairwise (· ≤ ·) l) (hnd : l.Nodup) :
    List.Pairwise (· < ·) l :=
  (hle.and hnd).imp (fun hab => lt_of_le_of_ne hab.1 hab.2)

/-- C2 amended: every produced snapshot has both sides of length at most
`depth` whenever `depth` is configured positive. Sorting is per connector: the
Binance and MercadoBitcoin message processors and the superseded pass-through
FoxBit variant (src/unnamed/part_004) republish the inbound arrays in their
original order, so their snapshots' sides are strictly sorted whenever the
inbound message's arrays are (an unsorted inbound message can yield an
unsorted snapshot — see the counterexample); the live map-based FoxBit
connector sorts its working maps on publish, so its snapshots' bids are always
non-increasing and asks non-decreasing by parsed price, strictly so when
distinct price keys parse to distinct prices. -/
theorem snapshot_passthrough_amended (cfg : ConnectorConfig) (now : ℤ)
    (msg : BinanceDepthUpdate) (fdata : FoxbitOrderbookData)
    (mbmsg : MBOrderbookMessage) (parse : String → ℚ) (tsb : ℤ)
    (sq : Option ℤ) (bidsMap asksMap : List (String × String)) (d : Nat)
    (hd : cfg.depth = some d) (hd0 : 0 < d) (he : msg.e = "depthUpdate") :
    ∃ ob, binanceProcessMessage cfg now msg = some ob ∧
      ob.bids.length ≤ d ∧ ob.asks.length ≤ d ∧
      ((msg.b.map Prod.fst).Chain' (· > ·) →
        (ob.bids.map OrderBookEntry.price).Chain' (· > ·)) ∧
      ((msg.a.map Prod.fst).Chain' (· < ·) →
        (ob.asks.map OrderBookEntry.price).Chain' (· < ·)) ∧
      (foxbitPassthroughProcess cfg now fdata).bids.length ≤ d ∧
      (foxbitPassthroughProcess cfg now fdata).asks.length ≤ d ∧
      ((fdata.bids.map Prod.fst).Chain' (· > ·) →
        ((foxbitPassthroughProcess cfg now fdata).bids.map
          OrderBookEntry.price).Chain' (· > ·)) ∧
      ((fdata.asks.map Prod.fst).Chain' (· < ·) →
        ((foxbitPassthroughProcess cfg now fdata).asks.map
          OrderBookEntry.price).Chain' (· < ·)) ∧
      (mbProcessOrderbookData cfg mbmsg).bids.length ≤ d ∧
      (mbProcessOrderbookData cfg mbmsg).asks.length ≤ d ∧
      ((mbmsg.data.bids.map Prod.fst).Chain' (· > ·) →
        ((mbProcessOrderbookData cfg mbmsg).bids.map
          OrderBookEntry.price).Chain' (· > ·)) ∧
      ((mbmsg.data.asks.map Prod.fst).Chain' (· < ·) →
        ((mbProcessOrderbookData cfg mbmsg).asks.map
          OrderBookEntry.price).Chain' (· < ·)) ∧
      (foxbitBuildOrderBook parse cfg tsb sq bidsMap asksMap).bids.length ≤ d ∧
      (foxbitBuildOrderBook parse cfg tsb sq bidsMap asksMap).asks.length ≤ d ∧
      ((foxbitBuildOrderBook parse cfg tsb sq bidsMap asksMap).bids.map
        OrderBookEntry.price).Chain' (· ≥ ·) ∧
      ((foxbitBuildOrderBook parse cfg tsb sq bidsMap asksMap).asks.map
        OrderBookEntry.price).Chain' (· ≤ ·) ∧
      ((bidsMap.map (fun kv => parse kv.1)).Nodup →
        ((foxbitBuildOrderBook parse cfg tsb sq bidsMap asksMap).bids.map
          OrderBookEntry.price).Chain' (· > ·)) ∧
      ((asksMap.map (fun kv => parse kv.1)).Nodup →
        ((foxbitBuildOrderBook parse cfg tsb sq bidsMap asksMap).asks.map
          OrderBookEntry.price).Chain' (· < ·)) := by
  have hne : d ≠ 0 := hd0.ne'
  have hB : binanceProcessMessage cfg now msg =
      some (trimOrderBook
        { exchange := "binance", symbol := cfg.symbol
          bids := msg.b.map (fun pq => OrderBookEntry.mk pq.1 pq.2)
          asks := msg.a.map (fun pq => OrderBookEntry.mk pq.1 pq.2)
          timestamp := now, sequenceId := some msg.u } d) := by
    simp [binanceProcessMessage, he, applyDepthLimit, hd, hne]
  have hF : foxbitPassthroughProcess cfg now fdata =
      trimOrderBook
        { exchange := "foxbit", symbol := cfg.symbol
          bids := fdata.bids.map (fun pq => OrderBookEntry.mk pq.1 pq.2)
          asks := fdata.asks.map (fun pq => OrderBookEntry.mk pq.1 pq.2)
          timestamp := jsOrIntDefault fdata.ts now
          sequenceId := jsOrOptInt fdata.last_sequence_id fdata.sequence_id } d := by
    simp [foxbitPassthroughProcess, applyDepthLimit, hd, hne]
  have hMB : mbProcessOrderbookData cfg mbmsg =
      trimOrderBook
        { exchange := "mercadobitcoin", symbol := cfg.symbol
          bids := mbmsg.data.bids.map (fun pv => OrderBookEntry.mk pv.1 pv.2)
          asks := mbmsg.data.asks.map (fun pv => OrderBookEntry.mk pv.1 pv.2)
          timestamp := Int.fdiv mbmsg.data.timestamp 1000000
          sequenceId := some mbmsg.ts } d := by
    simp [mbProcessOrderbookData, applyDepthLimit, hd, hne]
  have hFB : foxbitBuildOrderBook parse cfg tsb sq bidsMap asksMap =
      trimOrderBook
        { exchange := "foxbit", symbol := cfg.symbol
          bids := (bidsMap.insertionSort (fun a b => parse b.1 ≤ parse a.1)).map
            (fun kv => OrderBookEntry.mk (parse kv.1) (parse kv.2))
          asks := (asksMap.insertionSort (fun a b => parse a.1 ≤ parse b.1)).map
            (fun kv => OrderBookEntry.mk (parse kv.1) (parse kv.2))
          timestamp := tsb, sequenceId := sq } d := by
    simp [foxbitBuildOrderBook, applyDepthLimit, hd, hne]
  refine ⟨_, hB, ?_, ?_, ?_, ?_, ?_, ?_, ?_, ?_, ?_, ?_, ?_, ?_, ?_, ?_, ?_,
    ?_, ?_, ?_⟩
  · simp [trimOrderBook]
  · simp [trimOrderBook]
  · intro h
    exact chain_price_take msg.b d _ h
  · intro h
    exact chain_price_take msg.a d _ h
  · rw [hF]
    simp [trimOrderBook]
  · rw [hF]
    simp [trimOrderBook]
  · intro h
    rw [hF]
    exact chain_price_take fdata.bids d _ h
  · intro h
    rw [hF]
    exact chain_price_take fdata.asks d _ h
  · rw [hMB]
    simp [trimOrderBook]
  · rw [hMB]
    simp [trimOrderBook]
  · intro h
    rw [hMB]
    exact chain_price_take mbmsg.data.bids d _ h
  · intro h
    rw [hMB]
    exact chain_price_take mbmsg.data.asks d _ h
  · rw [hFB]
    simp [trimOrderBook]
  · rw [hFB]
    simp [trimOrderBook]
  · rw [hFB]
    exact chain_price_take_parse parse _ d _ (sortMap_prices_desc parse bidsMap)
  · rw [hFB]
    exact chain_price_take_parse parse _ d _ (sortMap_prices_asc parse asksMap)
  · intro h
    rw [hFB]
    exact chain_price_take_parse parse _ d _
      (pairwise_gt_of_ge_nodup (sortMap_prices_desc parse bidsMap)
        (sortMap_prices_nodup parse bidsMap _ h))
  · intro h
    rw [hFB]
    exact chain_price_take_parse parse _ d _
      (pairwise_lt_of_le_nodup (sortMap_prices_asc parse asksMap)
        (sortMap_prices_nodup parse asksMap _ h))

/-- Witness for the amended C2 at a depth-2 config, a sorted Binance message,
a sorted FoxBit payload, a sorted MercadoBitcoin message, and unsorted FoxBit
working maps. -/
theorem snapshot_passthrough_amended_witness :
    cfgC2W.depth = some 2 ∧ 0 < 2 ∧ msgC2W.e = "depthUpdate" ∧
    (∃ ob, binanceProcessMessage cfgC2W 0 msgC2W = some ob ∧
      ob.bids.length ≤ 2 ∧ ob.asks.length ≤ 2 ∧
      ((msgC2W.b.map Prod.fst).Chain' (· > ·) →
        (ob.bids.map OrderBookEntry.price).Chain' (· > ·)) ∧
      ((msgC2W.a.map Prod.fst).Chain' (· < ·) →
        (ob.asks.map OrderBookEntry.price).Chain' (· < ·)) ∧
      (foxbitPassthroughProcess cfgC2W 0 fdataC2W).bids.length ≤ 2 ∧
      (foxbitPassthroughProcess cfgC2W 0 fdataC2W).asks.length ≤ 2 ∧
      ((fdataC2W.bids.map Prod.fst).Chain' (· > ·) →
        ((foxbitPassthroughProcess cfgC2W 0 fdataC2W).bids.map
          OrderBookEntry.price).Chain' (· > ·)) ∧
      ((fdataC2W.asks.map Prod.fst).Chain' (· < ·) →
        ((foxbitPassthroughProcess cfgC2W 0 fdataC2W).asks.map
          OrderBookEntry.price).Chain' (· < ·)) ∧
      (mbProcessOrderbookData cfgC2W mbMsgC2W).bids.length ≤ 2 ∧
      (mbProcessOrderbookData cfgC2W mbMsgC2W).asks.length ≤ 2 ∧
      ((mbMsgC2W.data.bids.map Prod.fst).Chain' (· > ·) →
        ((mbProcessOrderbookData cfgC2W mbMsgC2W).bids.map
          OrderBookEntry.price).Chain' (· > ·)) ∧
      ((mbMsgC2W.data.asks.map Prod.fst).Chain' (· < ·) →
        ((mbProcessOrderbookData cfgC2W mbMsgC2W).asks.map
          OrderBookEntry.price).Chain' (· < ·)) ∧
      (foxbitBuildOrderBook parseC2W cfgC2W 5 (some 9) bidsMapC2W
        asksMapC2W).bids.length ≤ 2 ∧
      (foxbitBuildOrderBook parseC2W cfgC2W 5 (some 9) bidsMapC2W
        asksMapC2W).asks.length ≤ 2 ∧
      ((foxbitBuildOrderBook parseC2W cfgC2W 5 (some 9) bidsMapC2W
        asksMapC2W).bids.map OrderBookEntry.price).Chain' (· ≥ ·) ∧
      ((foxbitBuildOrderBook parseC2W cfgC2W 5 (some 9) bidsMapC2W
        asksMapC2W).asks.map OrderBookEntry.price).Chain' (· ≤ ·) ∧
      ((bidsMapC2W.map (fun kv => parseC2W kv.1)).Nodup →
        ((foxbitBuildOrderBook parseC2W cfgC2W 5 (some 9) bidsMapC2W
          asksMapC2W).bids.map OrderBookEntry.price).Chain' (· > ·)) ∧
      ((asksMapC2W.map (fun kv => parseC2W kv.1)).Nodup →
        ((foxbitBuildOrderBook parseC2W cfgC2W 5 (some 9) bidsMapC2W
          asksMapC2W).asks.map OrderBookEntry.price).Chain' (· < ·))) :=
  ⟨rfl, by decide, rfl,
    snapshot_passthrough_amended cfgC2W 0 msgC2W fdataC2W mbMsgC2W parseC2W 5
      (some 9) bidsMapC2W asksMapC2W 2 rfl (by decide) rfl⟩

theorem iterate_emit_armed (W p : Nat) (n : Nat) :
    (emitOrderBookUpdate W)^[n + 1] ⟨true, false, p⟩ = ⟨true, true, p⟩ := by
  induction n with
  | zero => simp [emitOrderBookUpdate]
  | succ n ih =>
      rw [Function.iterate_succ_apply', ih]
      simp [emitOrderBookUpdate]

/-- C3: after an immediate publish opens a debounce window (`0 < W`), any
`N ≥ 1` further snapshot-update events arriving inside the window only set the
pending flag — none of them publishes — and the single timer fire at window
close performs exactly one consolidated follow-up publish (count goes from
`c + 1` to `c + 2`, not `c + 1 + N`) and re-arms the window with the pending
flag cleared, so at most one follow-up is ever pending. The first conjunct
shows the immediate publish itself: from an idle state one update publishes at
once and opens the window. -/
theorem debounce_coalesces (W c N : Nat) (hW : 0 < W) (hN : 1 ≤ N) :
    emitOrderBookUpdate W ⟨false, false, c⟩ = ⟨true, false, c + 1⟩ ∧
    (emitOrderBookUpdate W)^[N] ⟨true, false, c + 1⟩ = ⟨true, true, c + 1⟩ ∧
    debounceTimerFire W ((emitOrderBookUpdate W)^[N] ⟨true, false, c + 1⟩) =
      ⟨true, false, c + 2⟩ := by
  obtain ⟨n, rfl⟩ := Nat.exists_eq_add_of_le hN
  have hiter := iterate_emit_armed W (c + 1) n
  rw [Nat.add_comm 1 n]
  refine ⟨?_, hiter, ?_⟩
  · simp [emitOrderBookUpdate, hW]
  · rw [hiter]
    simp [debounceTimerFire, emitOrderBookUpdate, hW]

/-- Witness for C3 with the default 100 ms window and three updates inside the
window. -/
theorem debounce_coalesces_witness :
    0 < 100 ∧ 1 ≤ 3 ∧
    emitOrderBookUpdate 100 ⟨false, false, 0⟩ = ⟨true, false, 1⟩ ∧
    (emitOrderBookUpdate 100)^[3] ⟨true, false, 1⟩ = ⟨true, true, 1⟩ ∧
    debounceTimerFire 100 ((emitOrderBookUpdate 100)^[3] ⟨true, false, 1⟩) =
      ⟨true, false, 2⟩ := by
  have h := debounce_coalesces 100 0 3 (by decide) (by decide)
  exact ⟨by decide, by decide, h.1, h.2.1, h.2.2⟩

theorem runFailures_spec (rc : ReconnectConfig) (hen : rc.enabled = true)
    (n : Nat) :
    ∀ (start : Nat) (st : ConnectionStatus),
      (rc.maxAttempts = 0 ∨ start + n ≤ rc.maxAttempts) →
      (runFailures (some rc) n ⟨st, start⟩).2 =
        (List.range n).map
          (fun j => some (rc.delayMs * effectiveMultiplier rc ^ (start + j))) ∧
      (runFailures (some rc) n ⟨st, start⟩).1.reconnectAttempts = start + n := by
  induction n with
  | zero => intro start st _; exact ⟨rfl, rfl⟩
  | succ n ih =>
      intro start st hmax
      have hguard : ¬ (0 < rc.maxAttempts ∧ rc.maxAttempts ≤ start) := by
        rcases hmax with h0 | hle
        · omega
        · omega
      have hstep : connectFailedStep (some rc) ⟨st, start⟩ =
          (⟨ConnectionStatus.reconnecting, start + 1⟩,
            some (rc.delayMs * effectiveMultiplier rc ^ start)) := by
        simp [connectFailedStep, scheduleReconnect, hen, hguard]
      have hmax2 : rc.maxAttempts = 0 ∨ (start + 1) + n ≤ rc.maxAttempts := by
        rcases hmax with h0 | hle
        · exact Or.inl h0
        · exact Or.inr (by omega)
      have hrest := ih (start + 1) ConnectionStatus.reconnecting hmax2
      constructor
      · show (connectFailedStep (some rc) ⟨st, start⟩).2 ::
            (runFailures (some rc) n (connectFailedStep (some rc) ⟨st, start⟩).1).2 = _
        rw [hstep]
        simp only [hrest.1, List.range_succ_eq_map, List.map_cons, List.map_map]
        refine List.cons_eq_cons.mpr ⟨?_, ?_⟩
        · simp
        · apply List.map_congr_left
          intro j _
          have hj : start + 1 + j = start + (j + 1) := by omega
          simp only [Function.comp_apply, Nat.succ_eq_add_one, hj]
      · show (runFailures (some rc) n
            (connectFailedStep (some rc) ⟨st, start⟩).1).1.reconnectAttempts = _
        rw [hstep]
        rw [hrest.2]
        omega

/-- C4 amended: across `k` consecutive failed attempts from a fresh connector
(counter 0), the delay scheduled for the `k`-th reconnect attempt (1-indexed,
`maxAttempts` permitting) is `delayMs * m^(k-1)` where `m` is the configured
`backoffMultiplier` if present and nonzero, and 1 otherwise — the code computes
the multiplier as `backoffMultiplier || 1`, so a configured multiplier of 0 is
replaced by 1. The attempt counter resets to 0 (and the status becomes
CONNECTED) when the socket opens. -/
theorem reconnect_backoff_amended (rc : ReconnectConfig) (k : Nat)
    (s : ConnectorMachineState) (st : ConnectionStatus)
    (hen : rc.enabled = true) (hk : 1 ≤ k)
    (hmax : rc.maxAttempts = 0 ∨ k ≤ rc.maxAttempts) :
    (runFailures (some rc) k ⟨st, 0⟩).2[k - 1]? =
      some (some (rc.delayMs * effectiveMultiplier rc ^ (k - 1))) ∧
    (handleOpen s).reconnectAttempts = 0 ∧
    (handleOpen s).status = ConnectionStatus.connected := by
  have hspec := runFailures_spec rc hen k 0 st (by simpa using hmax)
  refine ⟨?_, rfl, rfl⟩
  rw [hspec.1, List.getElem?_map, List.getElem?_range (by omega)]
  simp

/-- Witness for the amended C4: with the default policy (1000 ms, multiplier
3/2), the third attempt's scheduled delay is `1000 * (3/2)^2 = 2250`. -/
theorem reconnect_backoff_amended_witness :
    rcDefault.enabled = true ∧ 1 ≤ 3 ∧
    (rcDefault.maxAttempts = 0 ∨ 3 ≤ rcDefault.maxAttempts) ∧
    (runFailures (some rcDefault) 3 ⟨ConnectionStatus.connected, 0⟩).2[2]? =
      some (some (rcDefault.delayMs * effectiveMultiplier rcDefault ^ 2)) ∧
    rcDefault.delayMs * effectiveMultiplier rcDefault ^ 2 = 2250 ∧
    (handleOpen ⟨ConnectionStatus.connecting, 4⟩).reconnectAttempts = 0 ∧
    (handleOpen ⟨ConnectionStatus.connecting, 4⟩).status =
      ConnectionStatus.connected := by
  have h := reconnect_backoff_amended rcDefault 3
    ⟨ConnectionStatus.connecting, 4⟩ ConnectionStatus.connected rfl
    (by decide) (Or.inr (by decide))
  refine ⟨rfl, by decide, Or.inr (by decide), h.1, ?_, h.2.1, h.2.2⟩
  norm_num [rcDefault, effectiveMultiplier]

/-- C4 counterexample: with an explicitly configured `backoffMultiplier` of 0,
the delay the code schedules for reconnect attempt 2 is 1000 (the code's
`backoffMultiplier || 1` collapses 0 to 1), whereas the claimed formula
`initialDelayMs * backoffMultiplier^(k-1)` demands `1000 * 0^1 = 0`. -/
theorem reconnect_backoff_counterexample :
    (runFailures (some rcZeroMult) 2 ⟨ConnectionStatus.connected, 0⟩).2[1]? =
      some (some 1000) ∧
    rcZeroMult.delayMs * (0 : ℚ) ^ (2 - 1) = 0 ∧ (1000 : ℚ) ≠ 0 := by
  refine ⟨?_, by norm_num [rcZeroMult], by norm_num⟩
  norm_num [runFailures, connectFailedStep, scheduleReconnect, rcZeroMult,
    effectiveMultiplier]

theorem runAuto_errored (rc : ReconnectConfig) (hen : rc.enabled = true)
    (hmax : 0 < rc.maxAttempts) (events : List AutoEvent) :
    ∀ s : ConnectorMachineState,
      rc.maxAttempts ≤ s.reconnectAttempts →
      s.status = ConnectionStatus.error →
      (runAuto (some rc) s events).2 = [] ∧
      (runAuto (some rc) s events).1.status = ConnectionStatus.error := by
  induction events with
  | nil => intro s _ hst; exact ⟨rfl, hst⟩
  | cons e es ih =>
      intro s hatt hst
      have hguard : 0 < rc.maxAttempts ∧ rc.maxAttempts ≤ s.reconnectAttempts :=
        ⟨hmax, hatt⟩
      have hstep : autoStep (some rc) s e =
          ({ s with status := ConnectionStatus.error }, none) := by
        cases e with
        | connectFailed =>
            simp [autoStep, connectFailedStep, scheduleReconnect, hen, hguard]
        | socketClosed =>
            have hne : s.status ≠ ConnectionStatus.disconnected := by
              rw [hst]; intro hcontra; cases hcontra
            simp [autoStep, hne, scheduleReconnect, hen, hguard]
      have hrest := ih { s with status := ConnectionStatus.error }
        (by simpa using hatt) rfl
      constructor
      · show ((autoStep (some rc) s e).2.toList ++
            (runAuto (some rc) (autoStep (some rc) s e).1 es).2) = []
        rw [hstep]
        simpa using hrest.1
      · show (runAuto (some rc) (autoStep (some rc) s e).1 es).1.status =
            ConnectionStatus.error
        rw [hstep]
        exact hrest.2

/-- C5: with reconnect enabled and `maxAttempts > 0`, once the attempt counter
has reached `maxAttempts`, the next failed connect attempt leaves the
connector in ERROR with no reconnect timer scheduled; and from an ERROR state
no sequence of further automatic events (socket closes, failed connects) ever
schedules a reconnect timer or leaves ERROR — recovery requires an explicit
`connect()` call. -/
theorem errored_is_terminal (rc : ReconnectConfig) (s : ConnectorMachineState)
    (events : List AutoEvent) (hen : rc.enabled = true)
    (hmax : 0 < rc.maxAttempts)
    (hatt : rc.maxAttempts ≤ s.reconnectAttempts) :
    (autoStep (some rc) s AutoEvent.connectFailed).1.status =
      ConnectionStatus.error ∧
    (autoStep (some rc) s AutoEvent.connectFailed).2 = none ∧
    (s.status = ConnectionStatus.error →
      (runAuto (some rc) s events).2 = [] ∧
      (runAuto (some rc) s events).1.status = ConnectionStatus.error) := by
  have hguard : 0 < rc.maxAttempts ∧ rc.maxAttempts ≤ s.reconnectAttempts :=
    ⟨hmax, hatt⟩
  refine ⟨?_, ?_, fun hst => runAuto_errored rc hen hmax events s hatt hst⟩
  · simp [autoStep, connectFailedStep, scheduleReconnect, hen, hguard]
  · simp [autoStep, connectFailedStep, scheduleReconnect, hen, hguard]

/-- Witness for C5: default policy, counter at 5 of 5, two further automatic
events. -/
theorem errored_is_terminal_witness :
    rcDefault.enabled = true ∧ 0 < rcDefault.maxAttempts ∧
    rcDefault.maxAttempts ≤ 5 ∧
    (autoStep (some rcDefault) ⟨ConnectionStatus.error, 5⟩
      AutoEvent.connectFailed).1.status = ConnectionStatus.error ∧
    (autoStep (some rcDefault) ⟨ConnectionStatus.error, 5⟩
      AutoEvent.connectFailed).2 = none ∧
    ((⟨ConnectionStatus.error, 5⟩ : ConnectorMachineState).status =
        ConnectionStatus.error →
      (runAuto (some rcDefault) ⟨ConnectionStatus.error, 5⟩
        [AutoEvent.socketClosed, AutoEvent.connectFailed]).2 = [] ∧
      (runAuto (some rcDefault) ⟨ConnectionStatus.error, 5⟩
        [AutoEvent.socketClosed, AutoEvent.connectFailed]).1.status =
        ConnectionStatus.error) := by
  have h := errored_is_terminal rcDefault ⟨ConnectionStatus.error, 5⟩
    [AutoEvent.socketClosed, AutoEvent.connectFailed] rfl (by decide) (by decide)
  exact ⟨rfl, by decide, by decide, h.1, h.2.1, h.2.2⟩

theorem mapLookup_mapDelete {α : Type} (m : List (String × α)) (p : String) :
    mapLookup (mapDelete m p) p = none := by
  induction m with
  | nil => rfl
  | cons kv rest ih =>
      obtain ⟨k, v⟩ := kv
      by_cases hk : k = p
      · simpa [mapDelete, List.filter_cons, hk] using ih
      · simpa [mapDelete, List.filter_cons, hk, mapLookup] using ih

/-- C6 counterexample: a registered connector in RECONNECTING state — hence
not already disconnected — is not disconnected by `unregisterConnector`, which
only calls `disconnect()` when the status is exactly CONNECTED. -/
theorem unregister_disconnect_counterexample :
    mapLookup mC6.connectors "foxbit" = some ConnectionStatus.reconnecting ∧
    ConnectionStatus.reconnecting ≠ ConnectionStatus.disconnected ∧
    (unregisterConnector mC6 "foxbit").2 = false := by
  exact ⟨rfl, by decide, rfl⟩

/-- C6 amended: for every registered exchangeId, `unregisterConnector`
invokes `disconnect()` exactly when the connector's status is CONNECTED (a
CONNECTING/RECONNECTING/ERROR connector is left undisturbed); it removes the
cached snapshot and the subscription, so every subsequent
`getConsolidatedOrderBook()` excludes the removed exchangeId even if a stale
in-flight event for it arrives after unregistration. -/
theorem unregister_amended (m : ManagerState) (exchange : String)
    (st : ConnectionStatus) (ob : OrderBook)
    (hreg : mapLookup m.connectors exchange = some st) :
    ((unregisterConnector m exchange).2 = true ↔
      st = ConnectionStatus.connected) ∧
    mapLookup ((unregisterConnector m exchange).1).orderBooks exchange = none ∧
    mapLookup (consolidatedByExchange
      (deliverOrderBookEvent (unregisterConnector m exchange).1 exchange ob))
      exchange = none := by
  have hun : unregisterConnector m exchange =
      ({ connectors := mapDelete m.connectors exchange
         orderBooks := mapDelete m.orderBooks exchange
         unsubscribers := m.unsubscribers.filter (fun e2 => e2 ≠ exchange) },
        decide (st = ConnectionStatus.connected)) := by
    rw [unregisterConnector, hreg]
  rw [hun]
  refine ⟨by simp, mapLookup_mapDelete _ _, ?_⟩
  have hmem : exchange ∉ m.unsubscribers.filter (fun e2 => e2 ≠ exchange) := by
    simp [List.mem_filter]
  rw [deliverOrderBookEvent]
  simp only [hmem, if_false]
  exact mapLookup_mapDelete _ _

/-- Witness for the amended C6: a connected, subscribed connector with a
cached snapshot. -/
theorem unregister_amended_witness :
    mapLookup mC6W.connectors "binance" = some ConnectionStatus.connected ∧
    (((unregisterConnector mC6W "binance").2 = true ↔
        ConnectionStatus.connected = ConnectionStatus.connected) ∧
      mapLookup ((unregisterConnector mC6W "binance").1).orderBooks "binance" =
        none ∧
      mapLookup (consolidatedByExchange
        (deliverOrderBookEvent (unregisterConnector mC6W "binance").1 "binance"
          obC6W)) "binance" = none) :=
  ⟨rfl, unregister_amended mC6W "binance" ConnectionStatus.connected obC6W rfl⟩

theorem guardedConnect_ok (c : RegisteredConnector) :
    guardedConnect c = Except.ok () := by
  cases hc : connectOutcome c <;> simp [guardedConnect, hc]

/-- C7 counterexample: a registered connector sitting in ERROR state receives
no connect attempt from `connectAll`, which only attempts connectors whose
status is DISCONNECTED — refuting "fans out a connect attempt to all
registered connectors". -/
theorem connectAll_counterexample :
    csC7.map RegisteredConnector.exchange = ["binance"] ∧
    (connectAll csC7).1 = [] := by
  exact ⟨rfl, rfl⟩

/-- C7 amended: `connectAll` fans out a guarded connect attempt to exactly the
registered connectors currently in DISCONNECTED state; each attempt's
rejection is caught and logged individually, so one connector's failure does
not block the others, and `connectAll` itself (via `Promise.allSettled`)
always resolves successfully. -/
theorem connectAll_amended (cs : List RegisteredConnector)
    (hnd : (cs.map RegisteredConnector.exchange).Nodup)
    (c : RegisteredConnector) (hc : c ∈ cs) :
    (c.exchange ∈ (connectAll cs).1 ↔
      c.status = ConnectionStatus.disconnected) ∧
    (connectAll cs).2 = Except.ok () := by
  constructor
  · constructor
    · intro hmem
      rw [connectAll] at hmem
      simp only [List.mem_map] at hmem
      obtain ⟨c2, hc2, hex⟩ := hmem
      rw [List.mem_filter] at hc2
      have heq : c2 = c :=
        List.inj_on_of_nodup_map hnd hc2.1 hc hex
      rw [← heq]
      simpa using hc2.2
    · intro hst
      rw [connectAll]
      simp only [List.mem_map]
      refine ⟨c, ?_, rfl⟩
      rw [List.mem_filter]
      exact ⟨hc, by simpa using hst⟩
  · rw [connectAll]
    simp only
    rw [if_pos]
    rw [List.all_eq_true]
    intro r hr
    rw [List.mem_map] at hr
    obtain ⟨c2, _, hre⟩ := hr
    rw [← hre, guardedConnect_ok]

/-- Witness for the amended C7: one disconnected connector whose connect
fails and one already-connected connector. -/
theorem connectAll_amended_witness :
    ((csC7W.map RegisteredConnector.exchange).Nodup ∧
      ({ exchange := "binance", status := ConnectionStatus.disconnected
         connectSucceeds := false } : RegisteredConnector) ∈ csC7W) ∧
    (("binance" ∈ (connectAll csC7W).1 ↔
        ConnectionStatus.disconnected = ConnectionStatus.disconnected) ∧
      (connectAll csC7W).2 = Except.ok ()) := by
  refine ⟨⟨by decide, by decide⟩, ?_⟩
  exact connectAll_amended csC7W (by decide)
    { exchange := "binance", status := ConnectionStatus.disconnected
      connectSucceeds := false } (by decide)

theorem emit_foldl_log (ls : List ListenerSpec) :
    ∀ log : List Nat,
      ls.foldl (fun log2 l => (invokeListener log2 l).1) log =
        log ++ ls.map ListenerSpec.id := by
  induction ls with
  | nil => intro log; simp
  | cons l rest ih =>
      intro log
      rw [List.foldl_cons, ih]
      simp [invokeListener, List.append_assoc]

/-- C8: `_emit` delivers the event to every currently-registered observer
exactly once, in registration order, regardless of which observers' callbacks
throw — the per-listener try/catch means an exception thrown by one observer
never prevents delivery to the remaining observers. -/
theorem emit_delivers_to_all (ls : List ListenerSpec) :
    emitEvent ls = ls.map ListenerSpec.id := by
  rw [emitEvent, emit_foldl_log ls []]
  simp

theorem length_mapSet_of_not_mem {α : Type} (b : List (String × α))
    (k : String) (v : α) (hk : k ∉ b.map Prod.fst) :
    (mapSet b k v).length = b.length + 1 := by
  have hkeys := keys_mapSet b k v
  rw [if_neg hk] at hkeys
  have hlen := congrArg List.length hkeys
  simpa using hlen

theorem mapSetFold_length {α : Type} :
    ∀ (cs : List (String × α)) (b : List (String × α)),
      (cs.map Prod.fst).Nodup →
      (∀ k ∈ cs.map Prod.fst, k ∉ b.map Prod.fst) →
      (cs.foldl (fun b2 c => mapSet b2 c.1 c.2) b).length =
        b.length + cs.length := by
  intro cs
  induction cs with
  | nil => intro b _ _; simp
  | cons c rest ih =>
      intro b hnd hdisj
      obtain ⟨k, v⟩ := c
      simp only [List.foldl_cons]
      have hkb : k ∉ b.map Prod.fst := hdisj k (by simp)
      have hkeys := keys_mapSet b k v
      rw [if_neg hkb] at hkeys
      simp only [List.map_cons, List.nodup_cons] at hnd
      have hdisj2 : ∀ k2 ∈ rest.map Prod.fst,
          k2 ∉ (mapSet b k v).map Prod.fst := by
        intro k2 hk2
        rw [hkeys]
        simp only [List.mem_append, List.mem_singleton]
        rintro (hmem | rfl)
        · exact hdisj k2 (by simp [hk2]) hmem
        · exact hnd.1 hk2
      rw [ih (mapSet b k v) hnd.2 hdisj2,
        length_mapSet_of_not_mem b k v hkb]
      simp only [List.length_cons]
      omega

theorem statusStep_spec (acc : ManagerStatus) (k : String)
    (st : ConnectionStatus) :
    ((statusStep acc (k, st)).connectedCount +
        (statusStep acc (k, st)).connectingCount +
        (statusStep acc (k, st)).disconnectedCount +
        (statusStep acc (k, st)).errorCount =
      acc.connectedCount + acc.connectingCount + acc.disconnectedCount +
        acc.errorCount + 1) ∧
    ((statusStep acc (k, st)).connectingCount = acc.connectingCount +
      (if (decide (st = ConnectionStatus.connecting) ||
          decide (st = ConnectionStatus.reconnecting)) = true then 1 else 0)) ∧
    (statusStep acc (k, st)).byExchange = mapSet acc.byExchange k st := by
  cases st <;> simp [statusStep, statusTally] <;> omega

theorem getStatusFold_spec (cs : List (String × ConnectionStatus)) :
    ∀ acc : ManagerStatus,
      ((cs.foldl statusStep acc).connectedCount +
          (cs.foldl statusStep acc).connectingCount +
          (cs.foldl statusStep acc).disconnectedCount +
          (cs.foldl statusStep acc).errorCount =
        acc.connectedCount + acc.connectingCount + acc.disconnectedCount +
          acc.errorCount + cs.length) ∧
      ((cs.foldl statusStep acc).connectingCount = acc.connectingCount +
        (cs.filter (fun c => decide (c.2 = ConnectionStatus.connecting) ||
          decide (c.2 = ConnectionStatus.reconnecting))).length) ∧
      (cs.foldl statusStep acc).byExchange =
        cs.foldl (fun b c => mapSet b c.1 c.2) acc.byExchange := by
  induction cs with
  | nil => intro acc; exact ⟨by simp, by simp, rfl⟩
  | cons c rest ih =>
      intro acc
      obtain ⟨k, st⟩ := c
      simp only [List.foldl_cons]
      have hstep := statusStep_spec acc k st
      have hi := ih (statusStep acc (k, st))
      refine ⟨?_, ?_, ?_⟩
      · have h1 := hi.1
        have h2 := hstep.1
        simp only [List.length_cons]
        omega
      · have h1 := hi.2.1
        have h2 := hstep.2.1
        simp only [List.filter_cons]
        by_cases hcond : (decide (st = ConnectionStatus.connecting) ||
            decide (st = ConnectionStatus.reconnecting)) = true
        · rw [if_pos hcond] at h2
          rw [if_pos hcond]
          simp only [List.length_cons]
          omega
        · rw [if_neg hcond] at h2
          rw [if_neg hcond]
          omega
      · rw [hi.2.2, hstep.2.2]

/-- C9: for every list of registered connectors (exchange keys unique, as the
`_connectors` map guarantees), the counts `getStatus` returns sum to the
number of registered connectors, which also equals the size of the returned
`byExchange` map, and RECONNECTING connectors are counted in
`connectingCount` together with CONNECTING ones. -/
theorem getStatus_counts (cs : List (String × ConnectionStatus))
    (hnd : (cs.map Prod.fst).Nodup) :
    (getStatus cs).connectedCount + (getStatus cs).connectingCount +
      (getStatus cs).disconnectedCount + (getStatus cs).errorCount =
      cs.length ∧
    (getStatus cs).byExchange.length = cs.length ∧
    (getStatus cs).connectingCount =
      (cs.filter (fun c => decide (c.2 = ConnectionStatus.connecting) ||
        decide (c.2 = ConnectionStatus.reconnecting))).length := by
  have hspec := getStatusFold_spec cs
    { connectedCount := 0, connectingCount := 0, disconnectedCount := 0
      errorCount := 0, byExchange := [] }
  refine ⟨by simpa using hspec.1, ?_, by simpa using hspec.2.1⟩
  have hby := hspec.2.2
  rw [getStatus, hby]
  have hlen := mapSetFold_length cs [] hnd (by simp)
  simpa using hlen

/-- Witness for C9 with three connectors, one of them RECONNECTING. -/
theorem getStatus_counts_witness :
    (([("binance", ConnectionStatus.connected),
        ("foxbit", ConnectionStatus.reconnecting),
        ("mercadobitcoin", ConnectionStatus.disconnected)].map Prod.fst).Nodup) ∧
    ((getStatus [("binance", ConnectionStatus.connected),
        ("foxbit", ConnectionStatus.reconnecting),
        ("mercadobitcoin", ConnectionStatus.disconnected)]).connectedCount +
      (getStatus [("binance", ConnectionStatus.connected),
        ("foxbit", ConnectionStatus.reconnecting),
        ("mercadobitcoin", ConnectionStatus.disconnected)]).connectingCount +
      (getStatus [("binance", ConnectionStatus.connected),
        ("foxbit", ConnectionStatus.reconnecting),
        ("mercadobitcoin", ConnectionStatus.disconnected)]).disconnectedCount +
      (getStatus [("binance", ConnectionStatus.connected),
        ("foxbit", ConnectionStatus.reconnecting),
        ("mercadobitcoin", ConnectionStatus.disconnected)]).errorCount = 3 ∧
      (getStatus [("binance", ConnectionStatus.connected),
        ("foxbit", ConnectionStatus.reconnecting),
        ("mercadobitcoin", ConnectionStatus.disconnected)]).byExchange.length =
        3 ∧
      (getStatus [("binance", ConnectionStatus.connected),
        ("foxbit", ConnectionStatus.reconnecting),
        ("mercadobitcoin", ConnectionStatus.disconnected)]).connectingCount =
        ([("binance", ConnectionStatus.connected),
          ("foxbit", ConnectionStatus.reconnecting),
          ("mercadobitcoin", ConnectionStatus.disconnected)].filter
          (fun c => decide (c.2 = ConnectionStatus.connecting) ||
            decide (c.2 = ConnectionStatus.reconnecting))).length) :=
  ⟨by decide,
    getStatus_counts
      [("binance", ConnectionStatus.connected),
        ("foxbit", ConnectionStatus.reconnecting),
        ("mercadobitcoin", ConnectionStatus.disconnected)] (by decide)⟩

theorem statusTrace_spec :
    ∀ (calls : List ConnectionStatus) (current : ConnectionStatus),
      (statusTrace current calls).Chain' (fun a b => a ≠ b) ∧
      ∀ x, (statusTrace current calls).head? = some x → x ≠ current := by
  intro calls
  induction calls with
  | nil =>
      intro current
      refine ⟨List.chain'_nil, fun x hx => ?_⟩
      simp [statusTrace] at hx
  | cons t rest ih =>
      intro current
      by_cases h : current = t
      · have htr : statusTrace current (t :: rest) =
            statusTrace current rest := by
          simp [statusTrace, setStatus, h]
        rw [htr]
        exact ih current
      · have htr : statusTrace current (t :: rest) =
            t :: statusTrace t rest := by
          simp [statusTrace, setStatus, h]
        rw [htr]
        have hi := ih t
        constructor
        · rw [List.chain'_cons']
          refine ⟨?_, hi.1⟩
          intro y hy
          exact (hi.2 y (Option.mem_def.mp hy)).symm
        · intro x hx
          have hxt : t = x := by simpa using hx
          rw [← hxt]
          exact fun hc => h hc.symm

/-- C10: `_setStatus` with the current status emits no STATUS_CHANGE event,
and across any sequence of `_setStatus` calls the stream of STATUS_CHANGE
payloads the observers receive never carries the same status twice in a row —
no two consecutive STATUS_CHANGE events from one connector are equal. -/
theorem setStatus_no_redundant_events (current : ConnectionStatus)
    (calls : List ConnectionStatus) :
    (setStatus current current).2 = none ∧
    (statusTrace current calls).Chain' (fun a b => a ≠ b) := by
  refine ⟨?_, (statusTrace_spec calls current).1⟩
  simp [setStatus]

end OrderbookMonitor
